import Mathlib

/-!
# Verification of `ggen_codegen.py` (avmnif-rs code generator)

Shallow embedding of the two-stage pipeline of `src/ggen_codegen.py`:
`SimpleTurtleParser.parse_file` (a line-oriented best-effort extractor) and
`NifCodeGenerator` (four renderers plus the `generate` orchestrator).

Modelling conventions:
* Python strings are modelled as `String` / `List Char`; the character classes
  of the Python regexes (`\w`, `\s`, `\d`, `str.lower`) are modelled on their
  ASCII fragment, which is the fragment the ontology format uses.
* Each concrete regex of the source is translated into a dedicated matcher.
  Every pattern in the source has the shape "literal, then a greedy character
  run whose class is disjoint from the character that must follow", so greedy
  backtracking matching coincides with maximal-run matching, and `re.search`
  is the leftmost position at which the anchored matcher succeeds.
* Python dicts that accumulate record fields become an option-valued record
  (`Draft`); a key that was never assigned is `none`, and the renderers'
  `dict.get(k, default)` becomes `Option.getD`.
* `nif_functions.append(current_data)` appends a *reference*: a dict already
  appended keeps changing if the parser keeps mutating it, and the same dict
  can be appended twice.  The state machine therefore stores finished drafts
  (`frozen`), the live draft (`current`), and the list of appended draft
  generations (`appends`); the returned record list is materialised at end of
  input (`finalize`).  The generation of the live draft is `frozen.length`.
* Filesystem effects of `generate` are reified: the directories it creates and
  the `(path, text)` pairs it writes are returned as data; `datetime.now()` is
  passed in as the parameter `now`.
-/

set_option maxRecDepth 16384

/-! ## Character-level utilities (ASCII models of Python's str operations) -/

/-- Python `\s` on ASCII: space, tab, newline, carriage return, vertical tab, form feed. -/
def pyIsSpace (c : Char) : Bool :=
  c = ' ' || c = '\t' || c = '\n' || c = '\r' || c = '\x0b' || c = '\x0c'

/-- Python `\w` on ASCII: letters, digits, underscore. -/
def pyIsWord (c : Char) : Bool :=
  c.isAlpha || c.isDigit || c = '_'

/-- Whether `needle` occurs at the start of `hay` (model of `str.startswith` / an anchored literal). -/
def startsWithChars : List Char → List Char → Bool
  | [], _ => true
  | _ :: _, [] => false
  | n :: ns, h :: hs => n = h && startsWithChars ns hs

/-- Whether `needle` occurs somewhere in `hay` (model of Python's `in` on strings). -/
def containsSub (hay needle : List Char) : Bool :=
  match hay with
  | [] => needle.isEmpty
  | _ :: t => startsWithChars needle hay || containsSub t needle

/-- Model of `content.split('\n')`. -/
def splitLines : List Char → List (List Char)
  | [] => [[]]
  | c :: t =>
    if c = '\n' then [] :: splitLines t
    else
      match splitLines t with
      | [] => [[c]]
      | l :: ls => (c :: l) :: ls

/-- Model of `str.strip()` (ASCII whitespace). -/
def pyStrip (l : List Char) : List Char :=
  ((l.dropWhile pyIsSpace).reverse.dropWhile pyIsSpace).reverse

/-- Does the (stripped) line start with `#`?  Model of `line.startswith('#')`. -/
def hashStart : List Char → Bool
  | '#' :: _ => true
  | _ => false

/-- Value of a run of decimal digits, as Python `int` does it. -/
def digitsToNat (ds : List Char) : Nat :=
  ds.foldl (fun n c => n * 10 + (c.toNat - 48)) 0

/-- Python string comparison `a <= b`: lexicographic on code points, a proper
prefix is smaller. -/
def charListLe : List Char → List Char → Bool
  | [], _ => true
  | _ :: _, [] => false
  | a :: as, b :: bs =>
    if a < b then true
    else if b < a then false
    else charListLe as bs

/-! ## The concrete regexes of `SimpleTurtleParser.parse_file` -/

/-- The substring tested by `' a ex:NifFunction' in line` (note the leading space). -/
def nifMarker : List Char := " a ex:NifFunction".data

/-- Model of `re.match(r'ex:(\w+)\s+a ex:NifFunction', line)`: anchored at the
start of the line, returns the captured resource name. -/
def declMatch (t : List Char) : Option String :=
  if startsWithChars "ex:".data t then
    let r := t.drop 3
    let w := r.takeWhile pyIsWord
    let r1 := r.dropWhile pyIsWord
    let sp := r1.takeWhile pyIsSpace
    let r2 := r1.dropWhile pyIsSpace
    if !w.isEmpty && !sp.isEmpty && startsWithChars "a ex:NifFunction".data r2 then
      some ⟨w⟩
    else none
  else none

/-- Anchored step of `LIT\s+"([^"]+)"`: the literal `lit`, one or more spaces,
then a nonempty double-quoted value. -/
def matchQuotedAt (lit t : List Char) : Option String :=
  if startsWithChars lit t then
    let r := t.drop lit.length
    let sp := r.takeWhile pyIsSpace
    let r1 := r.dropWhile pyIsSpace
    if sp.isEmpty then none
    else
      match r1 with
      | '"' :: r2 =>
        let v := r2.takeWhile (fun c => c ≠ '"')
        if !v.isEmpty && startsWithChars "\"".data (r2.drop v.length) then
          some ⟨v⟩
        else none
      | _ => none
  else none

/-- Model of `re.search(r'LIT\s+"([^"]+)"', line)`: leftmost anchored match. -/
def searchQuoted (lit : List Char) : List Char → Option String
  | [] => matchQuotedAt lit []
  | c :: t =>
    match matchQuotedAt lit (c :: t) with
    | some v => some v
    | none => searchQuoted lit t

/-- Anchored step of `ex:arity\s+(\d+)`. -/
def matchArityAt (t : List Char) : Option Nat :=
  if startsWithChars "ex:arity".data t then
    let r := t.drop 8
    let sp := r.takeWhile pyIsSpace
    let r1 := r.dropWhile pyIsSpace
    let ds := r1.takeWhile Char.isDigit
    if !sp.isEmpty && !ds.isEmpty then some (digitsToNat ds) else none
  else none

/-- Model of `re.search(r'ex:arity\s+(\d+)', line)`. -/
def searchArityNum : List Char → Option Nat
  | [] => matchArityAt []
  | c :: t =>
    match matchArityAt (c :: t) with
    | some n => some n
    | none => searchArityNum t

/-- Anchored step of `ex:returnType\s+ex:(\w+)`. -/
def matchRetTypeAt (t : List Char) : Option String :=
  if startsWithChars "ex:returnType".data t then
    let r := t.drop 13
    let sp := r.takeWhile pyIsSpace
    let r1 := r.dropWhile pyIsSpace
    if sp.isEmpty then none
    else if startsWithChars "ex:".data r1 then
      let w := (r1.drop 3).takeWhile pyIsWord
      if !w.isEmpty then some ⟨w⟩ else none
    else none
  else none

/-- Model of `re.search(r'ex:returnType\s+ex:(\w+)', line)`. -/
def searchRetType : List Char → Option String
  | [] => matchRetTypeAt []
  | c :: t =>
    match matchRetTypeAt (c :: t) with
    | some v => some v
    | none => searchRetType t

/-- Anchored step of `@prefix\s+(\w+):\s+<([^>]+)>\s*\.`; on success returns the
captured name, the captured URI, and the rest of the input after the match. -/
def matchPrefixAt (t : List Char) : Option (String × String × List Char) :=
  if startsWithChars "@prefix".data t then
    let r := t.drop 7
    let sp := r.takeWhile pyIsSpace
    let r1 := r.dropWhile pyIsSpace
    let w := r1.takeWhile pyIsWord
    let r2 := r1.dropWhile pyIsWord
    if sp.isEmpty || w.isEmpty then none
    else
      match r2 with
      | ':' :: r3 =>
        let sp2 := r3.takeWhile pyIsSpace
        let r4 := r3.dropWhile pyIsSpace
        if sp2.isEmpty then none
        else
          match r4 with
          | '<' :: r5 =>
            let u := r5.takeWhile (fun c => c ≠ '>')
            let r6 := r5.drop u.length
            if u.isEmpty then none
            else
              match r6 with
              | '>' :: r7 =>
                let r8 := r7.dropWhile pyIsSpace
                match r8 with
                | '.' :: r9 => some (⟨w⟩, ⟨u⟩, r9)
                | _ => none
              | _ => none
          | _ => none
      | _ => none
  else none

/-- Model of `re.finditer(prefix_pattern, content)`: scan left to right,
emitting non-overlapping matches.  `fuel` bounds the recursion; every step
consumes at least one character, so `cs.length + 1` is always enough. -/
def scanPrefixDecls : Nat → List Char → List (String × String)
  | 0, _ => []
  | _ + 1, [] => []
  | fuel + 1, c :: t =>
    match matchPrefixAt (c :: t) with
    | some (w, u, rest) => (w, u) :: scanPrefixDecls fuel rest
    | none => scanPrefixDecls fuel t

/-- Python dict assignment `m[k] = v`: overwrite in place if the key exists
(keeping its position), else append. -/
def dictSet (m : List (String × String)) (k v : String) : List (String × String) :=
  if m.any (fun p => p.1 == k) then
    m.map (fun p => if p.1 == k then (p.1, v) else p)
  else m ++ [(k, v)]

/-! ## The Declarative Record (`current_data` dict) -/

/-- One entry of the `parameters` list (a `{name, doc}` dict). -/
structure Param where
  name : String
  doc : String
deriving Repr, DecidableEq

/-- The per-function dict built by `parse_file`.  Keys the parser may or may
not assign are `Option`; `id`, `parameters` and `examples` are present from
creation. -/
structure Draft where
  id : String
  label : Option String
  description : Option String
  erlangName : Option String
  rustName : Option String
  arity : Option Nat
  canFail : Option Bool
  returnType : Option String
  category : Option String
  parameters : List Param
  examples : List String
deriving Repr, DecidableEq

/-- Creation of a draft: `current_data = {'id': name, 'parameters': [], 'examples': []}`. -/
def mkDraft (name : String) : Draft :=
  { id := name, label := none, description := none, erlangName := none,
    rustName := none, arity := none, canFail := none, returnType := none,
    category := none, parameters := [], examples := [] }

/-! ## Property extraction (the `elif current_resource:` branch) -/

/-- Search for `rdfs:label` (unconditional). -/
def setLabel (t : List Char) (d : Draft) : Draft :=
  match searchQuoted "rdfs:label".data t with
  | some v => { d with label := some v }
  | none => d

/-- Search for `rdfs:comment` (unconditional). -/
def setDescription (t : List Char) (d : Draft) : Draft :=
  match searchQuoted "rdfs:comment".data t with
  | some v => { d with description := some v }
  | none => d

/-- Model of `if 'ex:erlangName' in line:` then search. -/
def setErlangName (t : List Char) (d : Draft) : Draft :=
  if containsSub t "ex:erlangName".data then
    match searchQuoted "ex:erlangName".data t with
    | some v => { d with erlangName := some v }
    | none => d
  else d

/-- Model of `if 'ex:rustName' in line:` then search. -/
def setRustName (t : List Char) (d : Draft) : Draft :=
  if containsSub t "ex:rustName".data then
    match searchQuoted "ex:rustName".data t with
    | some v => { d with rustName := some v }
    | none => d
  else d

/-- Model of `if 'ex:arity' in line:` then search for `ex:arity\s+(\d+)`. -/
def setArity (t : List Char) (d : Draft) : Draft :=
  if containsSub t "ex:arity".data then
    match searchArityNum t with
    | some n => { d with arity := some n }
    | none => d
  else d

/-- Model of `if 'ex:canFail' in line: current_data['canFail'] = 'true' in line.lower()`. -/
def setCanFail (t : List Char) (d : Draft) : Draft :=
  if containsSub t "ex:canFail".data then
    { d with canFail := some (containsSub (t.map Char.toLower) "true".data) }
  else d

/-- Model of `if 'ex:returnType' in line:` then search. -/
def setReturnType (t : List Char) (d : Draft) : Draft :=
  if containsSub t "ex:returnType".data then
    match searchRetType t with
    | some v => { d with returnType := some v }
    | none => d
  else d

/-- Model of `if 'ex:category' in line:` then search. -/
def setCategory (t : List Char) (d : Draft) : Draft :=
  if containsSub t "ex:category".data then
    match searchQuoted "ex:category".data t with
    | some v => { d with category := some v }
    | none => d
  else d

/-- Model of `if 'ex:examples' in line:` then search and append. -/
def setExamples (t : List Char) (d : Draft) : Draft :=
  if containsSub t "ex:examples".data then
    match searchQuoted "ex:examples".data t with
    | some v => { d with examples := d.examples ++ [v] }
    | none => d
  else d

/-- All property checks of one line, in source order (label, comment,
erlangName, rustName, arity, canFail, returnType, category, examples). -/
def applyProps (t : List Char) (d : Draft) : Draft :=
  setExamples t (setCategory t (setReturnType t (setCanFail t (setArity t
    (setRustName t (setErlangName t (setDescription t (setLabel t d))))))))

/-! ## The line-scanning state machine -/

/-- Parser state while scanning lines.  `frozen` holds drafts that were
replaced by a newer declaration (in creation order), `current` is the live
draft (its generation number is `frozen.length`), and `appends` records, in
order, the generation of each `nif_functions.append(current_data)` performed
so far (the same generation may be appended more than once: Python appends a
reference to the dict, not a copy). -/
structure PState where
  frozen : List Draft
  current : Option Draft
  appends : List Nat
deriving Repr, DecidableEq

def initPState : PState := ⟨[], none, []⟩

/-- Processing of one raw line of the input (one iteration of the `while`
loop).  Mirrors the source order: on a line containing the marker, the open
draft is appended *before* the declaration pattern is tried, and on a failed
declaration pattern the draft stays open (and already appended). -/
def stepLine (s : PState) (raw : List Char) : PState :=
  if (pyStrip raw).isEmpty || hashStart (pyStrip raw) then s
  else if containsSub (pyStrip raw) nifMarker then
    match declMatch (pyStrip raw) with
    | some name =>
      { frozen := s.frozen ++ s.current.toList
        current := some (mkDraft name)
        appends := if s.current.isSome then s.appends ++ [s.frozen.length] else s.appends }
    | none =>
      { s with appends := if s.current.isSome then s.appends ++ [s.frozen.length] else s.appends }
  else
    match s.current with
    | some d => { s with current := some (applyProps (pyStrip raw) d) }
    | none => s

/-- Placeholder draft used as the (unreachable) out-of-range default when the
appended references are resolved. -/
def defaultDraft : Draft := mkDraft ""

/-- End of input: the final `if current_resource and current_data: append`,
then resolution of every appended reference against the store of drafts. -/
def finalize (s : PState) : List Draft :=
  (s.appends ++ (if s.current.isSome then [s.frozen.length] else [])).map
    (fun g => (s.frozen ++ s.current.toList).getD g defaultDraft)

/-- The `nif_functions` list returned by `parse_file` for one input text. -/
def extractRecords (content : String) : List Draft :=
  finalize ((splitLines content.data).foldl stepLine initPState)

/-- A line that reaches the resource-declaration branch: non-empty after
stripping, not a comment, and containing `' a ex:NifFunction'`. -/
def markerLine (raw : List Char) : Bool :=
  !((pyStrip raw).isEmpty || hashStart (pyStrip raw)) && containsSub (pyStrip raw) nifMarker

/-- The resource id successfully extracted from a declaration line, if any. -/
def declOfLine (raw : List Char) : Option String :=
  if (pyStrip raw).isEmpty || hashStart (pyStrip raw) then none
  else if containsSub (pyStrip raw) nifMarker then declMatch (pyStrip raw)
  else none

/-- All resource ids declared (with a successful match) in the input, in order. -/
def declaredIds (content : String) : List String :=
  (splitLines content.data).filterMap declOfLine

/-! ## `parse_file` (records plus the instance-level prefix dict) -/

/-- The dict returned under the `'prefixes'` key together with the record list. -/
structure ParseResult where
  nif_functions : List Draft
  prefixes : List (String × String)
deriving Repr, DecidableEq

/-- Model of `SimpleTurtleParser.parse_file`.  `stPrefixes` is the value of
`self.prefixes` before the call (the parser object accumulates prefixes across
calls and never resets them); the second component of the result is the value
of `self.prefixes` after the call. -/
def parse_file (stPrefixes : List (String × String)) (content : String) :
    ParseResult × List (String × String) :=
  let newPrefixes :=
    (scanPrefixDecls (content.data.length + 1) content.data).foldl
      (fun m kv => dictSet m kv.1 kv.2) stPrefixes
  (⟨extractRecords content, newPrefixes⟩, newPrefixes)

/-! ## Renderers

Literal braces of the generated Rust/Erlang text are written `\x7b` / `\x7d`.
Each renderer follows the `code = header; for nif in nifs: code += block`
shape of the source as a `foldl` over the record list. -/

/-- The `# Parameters` comment lines of one function stub
(`for param in nif.get('parameters', []): ...`). -/
def renderParams (ps : List Param) : String :=
  ps.foldl (fun acc p => acc ++ ("    // - " ++ p.name ++ ": " ++ p.doc ++ "\n")) ""

/-- One function block of `_render_nif_functions`. -/
def renderNifFunction (d : Draft) : String :=
  "/// " ++ (d.label.getD d.id) ++
  "\n///\n/// " ++ (d.description.getD "No description") ++
  "\npub fn " ++ (d.rustName.getD "nif_unknown") ++
  "(\n    ctx: &mut Context,\n    args: &[Term],\n) -> NifResult<Term> \x7b\n    // Validate arity\n    if args.len() != " ++
  Nat.repr (d.arity.getD 0) ++
  " \x7b\n        return Err(NifError::BadArity);\n    \x7d\n\n    // TODO: Implement " ++
  (d.label.getD "this function") ++
  "\n    // Parameters:\n" ++
  renderParams d.parameters ++
  "\n    // Placeholder implementation\n    let result = TermValue::int(0);\n    Ok(Term::from_value(result, &mut ctx.heap)?)\n\x7d\n\n"

/-- The file header of `_render_nif_functions` (`now` models `datetime.now().isoformat()`). -/
def nifFunctionsHeader (now : String) : String :=
  "// Generated by ggen from example-math-nifs.ttl\n// NIF function implementations for math operations\n// DO NOT EDIT - This file is auto-generated from RDF ontologies\n// Generated at: " ++
  now ++
  "\n\nuse avmnif_rs::\x7b\n    atom::AtomTableOps,\n    context::Context,\n    term::\x7bTerm, TermValue, NifError, NifResult\x7d,\n\x7d;\n\n"

/-- Model of `NifCodeGenerator._render_nif_functions`. -/
def render_nif_functions (now : String) (nifs : List Draft) : String :=
  nifs.foldl (fun acc d => acc ++ renderNifFunction d) (nifFunctionsHeader now)

/-- One test block of `_render_tests`. -/
def renderTestEntry (d : Draft) : String :=
  "    /// Test: " ++ (d.label.getD "Unknown") ++
  "\n    #[test]\n    fn test_" ++ (d.rustName.getD "unknown") ++
  "() \x7b\n        // TODO: Implement test for " ++ (d.label.getD "Unknown") ++
  "\n        // This is a generated test stub\n        assert!(true);\n    \x7d\n\n"

/-- Model of `NifCodeGenerator._render_tests`. -/
def render_tests (nifs : List Draft) : String :=
  (nifs.foldl (fun acc d => acc ++ renderTestEntry d)
    "// Generated by ggen from example-math-nifs.ttl\n// Test suite for math NIFs\n// DO NOT EDIT - This file is auto-generated from RDF ontologies\n\n#[cfg(test)]\nmod math_nifs_tests \x7b\n    use avmnif_rs::testing::*;\n    use avmnif_rs::term::*;\n\n")
  ++ "\x7d\n"

/-- Python `nif.get('category', 'Other')`. -/
def catOf (d : Draft) : String := d.category.getD "Other"

/-- One step of building `by_category` (a Python dict from category to list,
insertion-ordered, appending to an existing key in place). -/
def addToGroups (m : List (String × List Draft)) (d : Draft) : List (String × List Draft) :=
  if m.any (fun p => p.1 == catOf d) then
    m.map (fun p => if p.1 == catOf d then (p.1, p.2 ++ [d]) else p)
  else m ++ [(catOf d, [d])]

/-- The `by_category` dict of `_render_docs`, as an insertion-ordered
association list. -/
def groupByCategory (nifs : List Draft) : List (String × List Draft) :=
  nifs.foldl addToGroups []

/-- Comparison used by `sorted(by_category.items())`: the category keys are
pairwise distinct by construction, so Python's tuple order reduces to the
lexicographic (code-point) order of the keys. -/
abbrev keyLe (a b : String × List Draft) : Prop := charListLe a.1.data b.1.data = true

instance : DecidableRel keyLe :=
  fun a b => inferInstanceAs (Decidable (charListLe a.1.data b.1.data = true))

/-- Model of `sorted(by_category.items())`. -/
def docsGroups (nifs : List Draft) : List (String × List Draft) :=
  List.insertionSort keyLe (groupByCategory nifs)

/-- One `###` entry of `_render_docs`. -/
def renderDocEntry (d : Draft) : String :=
  "### " ++ (d.label.getD "Unknown") ++
  " (`" ++ (d.erlangName.getD "unknown") ++
  "/" ++ Nat.repr (d.arity.getD 0) ++
  "`)\n\n**Rust name**: `" ++ (d.rustName.getD "unknown") ++
  "`\n\n" ++ (d.description.getD "No description") ++
  "\n\n**Arity**: " ++ Nat.repr (d.arity.getD 0) ++
  "\n**Can fail**: " ++ (if d.canFail.getD false then "true" else "false") ++
  "\n**Return type**: " ++ (d.returnType.getD "term") ++
  "\n\n"

/-- One `##` category section of `_render_docs`. -/
def renderDocGroup (g : String × List Draft) : String :=
  g.2.foldl (fun acc d => acc ++ renderDocEntry d) ("## " ++ g.1 ++ "\n\n")

/-- Model of `NifCodeGenerator._render_docs`. -/
def render_docs (now : String) (nifs : List Draft) : String :=
  (docsGroups nifs).foldl (fun acc g => acc ++ renderDocGroup g)
    ("# Generated Math NIFs Documentation\n\nGenerated by ggen from example-math-nifs.ttl at " ++
     now ++
     "\n\n## Overview\n\nThis module contains " ++ Nat.repr nifs.length ++
     " mathematical NIF function(s) auto-generated from RDF ontologies.\n\n")

/-- One Erlang stub of `_render_erlang_module`. -/
def renderErlangStub (d : Draft) : String :=
  (d.erlangName.getD "unknown") ++ "(" ++
  String.intercalate ", " ((List.range (d.arity.getD 0)).map (fun i => "Arg" ++ Nat.repr i)) ++
  ") ->\n    erlang:nif_error(not_implemented).\n\n"

/-- Model of `NifCodeGenerator._render_erlang_module`. -/
def render_erlang_module (nifs : List Draft) : String :=
  nifs.foldl (fun acc d => acc ++ renderErlangStub d)
    ("% Generated by ggen from example-math-nifs.ttl\n% Math NIF module stubs\n% DO NOT EDIT - This file is auto-generated from RDF ontologies\n\n-module(math_nifs).\n-export([\n" ++
     String.intercalate ", "
       (nifs.map (fun d => "    " ++ (d.erlangName.getD "unknown") ++ "/" ++ Nat.repr (d.arity.getD 0))) ++
     "\n]).\n\n")

/-! ## The `generate` orchestrator

Filesystem discovery is the external collaborator: `sources` is the ordered
`(file name, file text)` list of `schema/*.ttl`.  Directory creations and file
writes are returned as data instead of performed. -/

/-- Outcome of one run: the boolean returned by `generate`, the directories it
created, and the `(path, text)` pairs it wrote, in order. -/
structure GenResult where
  success : Bool
  dirsCreated : List String
  writes : List (String × String)
deriving Repr, DecidableEq

/-- One step of the loading loop: a source whose name contains `'core'` is
skipped entirely; otherwise it is parsed with the accumulated parser state and
its records are appended. -/
def loadStep (acc : List Draft × List (String × String)) (src : String × String) :
    List Draft × List (String × String) :=
  if containsSub src.1.data "core".data then acc
  else
    let pr := parse_file acc.2 src.2
    (acc.1 ++ pr.1.nif_functions, pr.2)

/-- The `all_nifs` loading loop of `generate`, threading `self.parser`'s
prefix state across files (fresh for a fresh `NifCodeGenerator`). -/
def loadAll (sources : List (String × String)) : List Draft × List (String × String) :=
  sources.foldl loadStep ([], [])

/-- Model of `NifCodeGenerator.generate(dry_run)`.  `(loadAll sources).1` is the
`all_nifs` list; both emptiness checks happen before any directory creation
or write. -/
def generate (now : String) (sources : List (String × String)) (dry_run : Bool) : GenResult :=
  if sources.isEmpty then ⟨false, [], []⟩
  else if (loadAll sources).1.isEmpty then ⟨false, [], []⟩
  else
    { success := true
      dirsCreated := if dry_run then [] else ["src/generated", "docs/generated"]
      writes :=
        if dry_run then []
        else
          [("src/generated/math_nifs.rs", render_nif_functions now (loadAll sources).1),
           ("src/generated/tests.rs", render_tests (loadAll sources).1),
           ("docs/generated/generated-math-nifs.md", render_docs now (loadAll sources).1),
           ("src/generated/math_nifs.erl", render_erlang_module (loadAll sources).1)] }

/-! ## Invariant predicates and concrete records used by the theorems -/

/-- Every draft tracked by the parser state has an empty `parameters` list. -/
def AllNilParams (s : PState) : Prop :=
  (∀ d ∈ s.frozen, d.parameters = []) ∧ (∀ d ∈ s.current.toList, d.parameters = [])

/-- Invariant tying the parser state to the ids declared so far: every frozen
generation has been appended exactly once, in order; the tracked ids are the
declared ids; and before the first declaration nothing is frozen. -/
def DeclInv (s : PState) (ids : List String) : Prop :=
  s.appends = List.range s.frozen.length ∧
  s.frozen.map (fun d => d.id) ++ (s.current.map (fun d => d.id)).toList = ids ∧
  (s.current = none → s.frozen = [])

/-- A record of category `Trig`, as in the spec's end-to-end scenario. -/
def sinTrig : Draft := { mkDraft "Sin" with category := some "Trig" }

/-- A record of category `Math`, as in the spec's end-to-end scenario. -/
def addMath : Draft := { mkDraft "Add" with category := some "Math" }

/-! ## Frame lemmas: each property setter touches only its own field -/

theorem setLabel_id (t : List Char) (d : Draft) : (setLabel t d).id = d.id := by
  unfold setLabel; split <;> rfl

theorem setDescription_id (t : List Char) (d : Draft) : (setDescription t d).id = d.id := by
  unfold setDescription; split <;> rfl

theorem setErlangName_id (t : List Char) (d : Draft) : (setErlangName t d).id = d.id := by
  unfold setErlangName; split
  · split <;> rfl
  · rfl

theorem setRustName_id (t : List Char) (d : Draft) : (setRustName t d).id = d.id := by
  unfold setRustName; split
  · split <;> rfl
  · rfl

theorem setArity_id (t : List Char) (d : Draft) : (setArity t d).id = d.id := by
  unfold setArity; split
  · split <;> rfl
  · rfl

theorem setCanFail_id (t : List Char) (d : Draft) : (setCanFail t d).id = d.id := by
  unfold setCanFail; split <;> rfl

theorem setReturnType_id (t : List Char) (d : Draft) : (setReturnType t d).id = d.id := by
  unfold setReturnType; split
  · split <;> rfl
  · rfl

theorem setCategory_id (t : List Char) (d : Draft) : (setCategory t d).id = d.id := by
  unfold setCategory; split
  · split <;> rfl
  · rfl

theorem setExamples_id (t : List Char) (d : Draft) : (setExamples t d).id = d.id := by
  unfold setExamples; split
  · split <;> rfl
  · rfl

/-- The resource id is fixed at draft creation and never reassigned. -/
theorem applyProps_id (t : List Char) (d : Draft) : (applyProps t d).id = d.id := by
  simp [applyProps, setExamples_id, setCategory_id, setReturnType_id, setCanFail_id,
    setArity_id, setRustName_id, setErlangName_id, setDescription_id, setLabel_id]

theorem setLabel_params (t : List Char) (d : Draft) : (setLabel t d).parameters = d.parameters := by
  unfold setLabel; split <;> rfl

theorem setDescription_params (t : List Char) (d : Draft) : (setDescription t d).parameters = d.parameters := by
  unfold setDescription; split <;> rfl

theorem setErlangName_params (t : List Char) (d : Draft) : (setErlangName t d).parameters = d.parameters := by
  unfold setErlangName; split
  · split <;> rfl
  · rfl

theorem setRustName_params (t : List Char) (d : Draft) : (setRustName t d).parameters = d.parameters := by
  unfold setRustName; split
  · split <;> rfl
  · rfl

theorem setArity_params (t : List Char) (d : Draft) : (setArity t d).parameters = d.parameters := by
  unfold setArity; split
  · split <;> rfl
  · rfl

theorem setCanFail_params (t : List Char) (d : Draft) : (setCanFail t d).parameters = d.parameters := by
  unfold setCanFail; split <;> rfl

theorem setReturnType_params (t : List Char) (d : Draft) : (setReturnType t d).parameters = d.parameters := by
  unfold setReturnType; split
  · split <;> rfl
  · rfl

theorem setCategory_params (t : List Char) (d : Draft) : (setCategory t d).parameters = d.parameters := by
  unfold setCategory; split
  · split <;> rfl
  · rfl

theorem setExamples_params (t : List Char) (d : Draft) : (setExamples t d).parameters = d.parameters := by
  unfold setExamples; split
  · split <;> rfl
  · rfl

/-- No rule of the parser ever appends to `parameters`. -/
theorem applyProps_params (t : List Char) (d : Draft) : (applyProps t d).parameters = d.parameters := by
  simp [applyProps, setExamples_params, setCategory_params, setReturnType_params,
    setCanFail_params, setArity_params, setRustName_params, setErlangName_params,
    setDescription_params, setLabel_params]

theorem setReturnType_canFail (t : List Char) (d : Draft) : (setReturnType t d).canFail = d.canFail := by
  unfold setReturnType; split
  · split <;> rfl
  · rfl

theorem setCategory_canFail (t : List Char) (d : Draft) : (setCategory t d).canFail = d.canFail := by
  unfold setCategory; split
  · split <;> rfl
  · rfl

theorem setExamples_canFail (t : List Char) (d : Draft) : (setExamples t d).canFail = d.canFail := by
  unfold setExamples; split
  · split <;> rfl
  · rfl

theorem setLabel_arity (t : List Char) (d : Draft) : (setLabel t d).arity = d.arity := by
  unfold setLabel; split <;> rfl

theorem setDescription_arity (t : List Char) (d : Draft) : (setDescription t d).arity = d.arity := by
  unfold setDescription; split <;> rfl

theorem setErlangName_arity (t : List Char) (d : Draft) : (setErlangName t d).arity = d.arity := by
  unfold setErlangName; split
  · split <;> rfl
  · rfl

theorem setRustName_arity (t : List Char) (d : Draft) : (setRustName t d).arity = d.arity := by
  unfold setRustName; split
  · split <;> rfl
  · rfl

theorem setCanFail_arity (t : List Char) (d : Draft) : (setCanFail t d).arity = d.arity := by
  unfold setCanFail; split <;> rfl

theorem setReturnType_arity (t : List Char) (d : Draft) : (setReturnType t d).arity = d.arity := by
  unfold setReturnType; split
  · split <;> rfl
  · rfl

theorem setCategory_arity (t : List Char) (d : Draft) : (setCategory t d).arity = d.arity := by
  unfold setCategory; split
  · split <;> rfl
  · rfl

theorem setExamples_arity (t : List Char) (d : Draft) : (setExamples t d).arity = d.arity := by
  unfold setExamples; split
  · split <;> rfl
  · rfl

/-- If the `ex:arity` pattern does not produce a number, the field is left as it was. -/
theorem setArity_noMatch (t : List Char) (d : Draft)
    (h : containsSub t "ex:arity".data = true → searchArityNum t = none) :
    (setArity t d).arity = d.arity := by
  unfold setArity
  cases hc : containsSub t "ex:arity".data with
  | false => simp [hc]
  | true => simp [hc, h hc]

/-! ## C2: purity of `parse_file` -/

/-- C2 (amended, record part): the record list returned by `parse_file` is a
pure function of the input text — it does not depend on the parser instance's
accumulated prefix state. -/
theorem parse_records_pure (st1 st2 : List (String × String)) (content : String) :
    (parse_file st1 content).1.nif_functions = (parse_file st2 content).1.nif_functions := rfl

/-- C2 (counterexample): the prefix mapping returned for a text *does* depend
on texts parsed earlier by the same parser instance: parsing `""` after
`"@prefix a: <u> ."` returns the stale mapping `[("a", "u")]`, while a fresh
parse of `""` returns the empty mapping.  `self.prefixes` is never reset. -/
theorem parse_prefixes_stateful_cex :
    (parse_file ((parse_file [] "@prefix a: <u> .").2) "").1.prefixes ≠
      (parse_file [] "").1.prefixes := by decide

/-- Witness for `parse_records_pure` at concrete states and text. -/
theorem parse_records_pure_witness :
    (parse_file [("a", "u")] "ex:Add a ex:NifFunction .").1.nif_functions =
      (parse_file [] "ex:Add a ex:NifFunction .").1.nif_functions :=
  parse_records_pure [("a", "u")] [] "ex:Add a ex:NifFunction ."

/-! ## C4: the `canFail` rule -/

/-- C4: on a property line containing `ex:canFail`, the parser sets `canFail`
to the boolean "the lowercased line contains `true`" — so the field becomes
`true` only if a case-insensitive `true` occurs in the matched line, and any
other value yields `false`. -/
theorem canFail_true_token (t : List Char) (d : Draft)
    (h : containsSub t "ex:canFail".data = true) :
    (applyProps t d).canFail = some (containsSub (t.map Char.toLower) "true".data) := by
  unfold applyProps
  rw [setExamples_canFail, setCategory_canFail, setReturnType_canFail]
  simp [setCanFail, h]

/-- Witness for `canFail_true_token`: a `canFail` line whose value is not a
`true` token yields `false`. -/
theorem canFail_true_token_witness :
    (applyProps "ex:canFail \"nope\" .".data (mkDraft "X")).canFail = some false := by
  have h := canFail_true_token "ex:canFail \"nope\" .".data (mkDraft "X") (by decide)
  rw [h]; decide

/-! ## C5: empty input is a failed run with no artifacts -/

/-- C5: with zero sources, or zero records after excluding the base
vocabulary, `generate` returns failure and performs no directory creation and
no write. -/
theorem empty_input_no_op (now : String) (sources : List (String × String)) (dry_run : Bool)
    (h : sources = [] ∨ (loadAll sources).1 = []) :
    generate now sources dry_run = ⟨false, [], []⟩ := by
  rcases h with h | h <;> simp [generate, h]

/-- Witness for `empty_input_no_op`: a source set containing only the core
ontology yields a failed run with no artifacts. -/
theorem empty_input_no_op_witness :
    generate "" [("core.ttl", "ex:Foo a ex:NifFunction .")] false = ⟨false, [], []⟩ :=
  empty_input_no_op "" [("core.ttl", "ex:Foo a ex:NifFunction .")] false (Or.inr (by decide))

/-! ## C6: base-vocabulary sources contribute nothing -/

theorem loadStep_skip (acc : List Draft × List (String × String)) (name content : String)
    (h : containsSub name.data "core".data = true) :
    loadStep acc (name, content) = acc := by
  simp [loadStep, h]

/-- C6: a source whose name contains `'core'` contributes nothing at all to
the load — removing it from the source list leaves both the combined record
list and the final parser state unchanged, whatever its content. -/
theorem core_source_contributes_nothing (name content : String)
    (h : containsSub name.data "core".data = true)
    (pre post : List (String × String)) :
    loadAll (pre ++ (name, content) :: post) = loadAll (pre ++ post) := by
  unfold loadAll
  rw [List.foldl_append, List.foldl_append, List.foldl_cons, loadStep_skip _ _ _ h]

/-- Witness for `core_source_contributes_nothing` at a concrete source list. -/
theorem core_source_contributes_nothing_witness :
    loadAll [("math.ttl", "ex:Add a ex:NifFunction ."), ("core.ttl", "ex:Z a ex:NifFunction .")] =
      loadAll [("math.ttl", "ex:Add a ex:NifFunction .")] :=
  core_source_contributes_nothing "core.ttl" "ex:Z a ex:NifFunction ." (by decide)
    [("math.ttl", "ex:Add a ex:NifFunction .")] []

/-! ## C9: dry runs touch nothing -/

/-- C9: with writes disabled, `generate` creates no directory and writes no
file, on every input. -/
theorem dry_run_no_writes (now : String) (sources : List (String × String)) :
    (generate now sources true).dirsCreated = [] ∧ (generate now sources true).writes = [] := by
  unfold generate
  split
  · exact ⟨rfl, rfl⟩
  · split
    · exact ⟨rfl, rfl⟩
    · exact ⟨rfl, rfl⟩

/-! ## C3: default label -/

/-- C3 (counterexample): for a record with no label and id `"Foo"`, the
documentation renderer does not use the id as the label — its output contains
`Unknown` and does not mention `Foo` anywhere. -/
theorem label_default_cex :
    (mkDraft "Foo").label = none ∧ (mkDraft "Foo").id = "Foo" ∧
    containsSub (render_docs "" [mkDraft "Foo"]).data "Foo".data = false ∧
    containsSub (render_docs "" [mkDraft "Foo"]).data "Unknown".data = true := by
  decide

/-- C3 (amended): when `label` is absent, only the function-stub renderer
falls back to the record's `id`; the documentation and test renderers fall
back to the literal `"Unknown"` instead. -/
theorem label_default_amended (d : Draft) (h : d.label = none) :
    (∃ s, renderNifFunction d = "/// " ++ d.id ++ s) ∧
    (∃ s, renderDocEntry d = "### " ++ "Unknown" ++ s) ∧
    (∃ s, renderTestEntry d = "    /// Test: " ++ "Unknown" ++ s) := by
  refine ⟨?_, ?_, ?_⟩
  · refine ⟨"\n///\n/// " ++ d.description.getD "No description" ++ "\npub fn " ++
      d.rustName.getD "nif_unknown" ++
      "(\n    ctx: &mut Context,\n    args: &[Term],\n) -> NifResult<Term> \x7b\n    // Validate arity\n    if args.len() != " ++
      Nat.repr (d.arity.getD 0) ++
      " \x7b\n        return Err(NifError::BadArity);\n    \x7d\n\n    // TODO: Implement " ++
      "this function" ++ "\n    // Parameters:\n" ++ renderParams d.parameters ++
      "\n    // Placeholder implementation\n    let result = TermValue::int(0);\n    Ok(Term::from_value(result, &mut ctx.heap)?)\n\x7d\n\n", ?_⟩
    unfold renderNifFunction
    rw [h]
    simp only [Option.getD_none, String.append_assoc]
  · refine ⟨" (`" ++ d.erlangName.getD "unknown" ++ "/" ++ Nat.repr (d.arity.getD 0) ++
      "`)\n\n**Rust name**: `" ++ d.rustName.getD "unknown" ++ "`\n\n" ++
      d.description.getD "No description" ++ "\n\n**Arity**: " ++ Nat.repr (d.arity.getD 0) ++
      "\n**Can fail**: " ++ (if d.canFail.getD false then "true" else "false") ++
      "\n**Return type**: " ++ d.returnType.getD "term" ++ "\n\n", ?_⟩
    unfold renderDocEntry
    rw [h]
    simp only [Option.getD_none, String.append_assoc]
  · refine ⟨"\n    #[test]\n    fn test_" ++ d.rustName.getD "unknown" ++
      "() \x7b\n        // TODO: Implement test for " ++ "Unknown" ++
      "\n        // This is a generated test stub\n        assert!(true);\n    \x7d\n\n", ?_⟩
    unfold renderTestEntry
    rw [h]
    simp only [Option.getD_none, String.append_assoc]

/-- Witness for `label_default_amended` at a concrete label-less record. -/
theorem label_default_amended_witness :
    (∃ s, renderNifFunction (mkDraft "Foo") = "/// " ++ "Foo" ++ s) ∧
    (∃ s, renderDocEntry (mkDraft "Foo") = "### " ++ "Unknown" ++ s) ∧
    (∃ s, renderTestEntry (mkDraft "Foo") = "    /// Test: " ++ "Unknown" ++ s) :=
  label_default_amended (mkDraft "Foo") rfl

/-! ## C8: arity default -/

/-- The arity guard of a function stub, isolated: the rendered block is some
prefix, then `if args.len() != `, then the decimal arity (defaulted to 0),
then a suffix. -/
theorem renderNifFunction_guard (d : Draft) :
    ∃ pre post, renderNifFunction d =
      pre ++ "if args.len() != " ++ Nat.repr (d.arity.getD 0) ++ post := by
  refine
    ⟨"/// " ++ (d.label.getD d.id) ++ "\n///\n/// " ++ (d.description.getD "No description") ++
      "\npub fn " ++ (d.rustName.getD "nif_unknown") ++
      "(\n    ctx: &mut Context,\n    args: &[Term],\n) -> NifResult<Term> \x7b\n    // Validate arity\n    ",
     " \x7b\n        return Err(NifError::BadArity);\n    \x7d\n\n    // TODO: Implement " ++
       (d.label.getD "this function") ++ "\n    // Parameters:\n" ++ renderParams d.parameters ++
       "\n    // Placeholder implementation\n    let result = TermValue::int(0);\n    Ok(Term::from_value(result, &mut ctx.heap)?)\n\x7d\n\n",
     ?_⟩
  unfold renderNifFunction
  rw [show ("(\n    ctx: &mut Context,\n    args: &[Term],\n) -> NifResult<Term> \x7b\n    // Validate arity\n    if args.len() != " : String) =
    "(\n    ctx: &mut Context,\n    args: &[Term],\n) -> NifResult<Term> \x7b\n    // Validate arity\n    " ++ "if args.len() != " from rfl]
  simp only [String.append_assoc]

/-- C8: a draft starts with no arity; a property line on which the arity
pattern fails leaves the arity unchanged; and the stub rendered for a record
with no arity carries the guard `if args.len() != 0`. -/
theorem arity_default (s0 : String) (t : List Char) (d : Draft)
    (h1 : containsSub t "ex:arity".data = true → searchArityNum t = none)
    (h2 : d.arity = none) :
    (mkDraft s0).arity = none ∧ (applyProps t d).arity = d.arity ∧
    ∃ pre post, renderNifFunction d = pre ++ "if args.len() != 0" ++ post := by
  refine ⟨rfl, ?_, ?_⟩
  · unfold applyProps
    rw [setExamples_arity, setCategory_arity, setReturnType_arity, setCanFail_arity,
      setArity_noMatch _ _ h1, setRustName_arity, setErlangName_arity, setDescription_arity,
      setLabel_arity]
  · obtain ⟨pre, post, hp⟩ := renderNifFunction_guard d
    rw [h2] at hp
    have e : ("if args.len() != " ++ (Option.getD (none : Option Nat) 0).repr) =
        "if args.len() != 0" := by decide
    refine ⟨pre, post, hp.trans ?_⟩
    rw [String.append_assoc pre "if args.len() != " (Option.getD (none : Option Nat) 0).repr, e]

/-- Witness for `arity_default`: an arity line whose value fails the integer
pattern, on a fresh draft. -/
theorem arity_default_witness :
    (mkDraft "Add").arity = none ∧
    (applyProps "ex:arity \"two\" .".data (mkDraft "Add")).arity = (mkDraft "Add").arity ∧
    ∃ pre post, renderNifFunction (mkDraft "Add") = pre ++ "if args.len() != 0" ++ post :=
  arity_default "Add" "ex:arity \"two\" .".data (mkDraft "Add") (by decide) rfl

/-! ## C10: `parameters` is always empty -/

theorem stepLine_nilParams (s : PState) (raw : List Char) (h : AllNilParams s) :
    AllNilParams (stepLine s raw) := by
  obtain ⟨h1, h2⟩ := h
  unfold stepLine
  split
  · exact ⟨h1, h2⟩
  · split
    · split
      · refine ⟨?_, ?_⟩
        · intro d hd
          rcases List.mem_append.mp hd with hd | hd
          · exact h1 d hd
          · exact h2 d hd
        · intro d hd
          rw [Option.toList_some, List.mem_singleton] at hd
          subst hd
          rfl
      · exact ⟨h1, h2⟩
    · split
      · refine ⟨h1, ?_⟩
        intro d' hd'
        rw [Option.toList_some, List.mem_singleton] at hd'
        subst hd'
        rw [applyProps_params]
        exact h2 _ (by simp_all)
      · exact ⟨h1, h2⟩

theorem foldl_nilParams (ls : List (List Char)) : ∀ s : PState, AllNilParams s →
    AllNilParams (ls.foldl stepLine s) := by
  induction ls with
  | nil => intro s h; exact h
  | cons raw t ih =>
    intro s h
    rw [List.foldl_cons]
    exact ih _ (stepLine_nilParams s raw h)

theorem finalize_nilParams (s : PState) (h : AllNilParams s) :
    ∀ r ∈ finalize s, r.parameters = [] := by
  intro r hr
  unfold finalize at hr
  obtain ⟨g, _, hg⟩ := List.mem_map.mp hr
  rw [List.getD_eq_getElem?_getD] at hg
  cases hidx : (s.frozen ++ s.current.toList)[g]? with
  | none => rw [hidx] at hg; simp at hg; subst hg; rfl
  | some a =>
    rw [hidx] at hg
    simp only [Option.getD_some] at hg
    subst hg
    rcases List.mem_append.mp (List.getElem?_mem hidx) with hm | hm
    · exact h.1 _ hm
    · exact h.2 _ hm

/-- C10: every record produced by the parser has an empty `parameters` list,
and the parameter-documentation section rendered for it is empty. -/
theorem parameters_always_empty (content : String) (r : Draft)
    (hr : r ∈ extractRecords content) :
    r.parameters = [] ∧ renderParams r.parameters = "" := by
  have hp : r.parameters = [] := by
    refine finalize_nilParams _ ?_ r hr
    exact foldl_nilParams _ initPState
      ⟨fun _ hd => absurd hd (List.not_mem_nil _), fun _ hd => absurd hd (List.not_mem_nil _)⟩
  exact ⟨hp, by rw [hp]; rfl⟩

/-- Witness for `parameters_always_empty` at a concrete input and record. -/
theorem parameters_always_empty_witness :
    (mkDraft "Add").parameters = [] ∧ renderParams (mkDraft "Add").parameters = "" :=
  parameters_always_empty "ex:Add a ex:NifFunction ." (mkDraft "Add") (by decide)

/-! ## C1: each draft is finalized exactly once (on well-formed declarations) -/

/-- Resolving index `g` for every `g` below the length gives back the list. -/
theorem map_getD_range {α : Type} (l : List α) (dflt : α) :
    (List.range l.length).map (fun g => l.getD g dflt) = l := by
  induction l with
  | nil => rfl
  | cons a t ih =>
    rw [List.length_cons, List.range_succ_eq_map, List.map_cons, List.map_map]
    congr 1

theorem stepLine_declInv (s : PState) (ids : List String) (raw : List Char)
    (hgood : markerLine raw = true → (declMatch (pyStrip raw)).isSome = true)
    (h : DeclInv s ids) :
    DeclInv (stepLine s raw) (ids ++ (declOfLine raw).toList) := by
  obtain ⟨h1, h2, h3⟩ := h
  cases hsk : ((pyStrip raw).isEmpty || hashStart (pyStrip raw)) with
  | true =>
    have e1 : stepLine s raw = s := by unfold stepLine; rw [if_pos hsk]
    have e2 : declOfLine raw = none := by unfold declOfLine; rw [if_pos hsk]
    rw [e1, e2]
    exact ⟨h1, by simpa using h2, h3⟩
  | false =>
    cases hmk : containsSub (pyStrip raw) nifMarker with
    | false =>
      have e2 : declOfLine raw = none := by
        unfold declOfLine
        rw [if_neg (by simp [hsk]), if_neg (by simp [hmk])]
      rw [e2]
      cases hcur : s.current with
      | none =>
        have e1 : stepLine s raw = s := by
          unfold stepLine
          rw [if_neg (by simp [hsk]), if_neg (by simp [hmk]), hcur]
        rw [e1]
        exact ⟨h1, by simpa using h2, h3⟩
      | some d =>
        have e1 : stepLine s raw = { s with current := some (applyProps (pyStrip raw) d) } := by
          unfold stepLine
          rw [if_neg (by simp [hsk]), if_neg (by simp [hmk]), hcur]
        rw [e1]
        refine ⟨h1, ?_, by intro hc; exact absurd hc (by simp)⟩
        rw [hcur] at h2
        simpa [applyProps_id] using h2
    | true =>
      have hml : markerLine raw = true := by simp [markerLine, hsk, hmk]
      obtain ⟨name, hname⟩ := Option.isSome_iff_exists.mp (hgood hml)
      have e2 : declOfLine raw = some name := by
        unfold declOfLine
        rw [if_neg (by simp [hsk]), if_pos hmk, hname]
      rw [e2]
      have e1 : stepLine s raw =
          { frozen := s.frozen ++ s.current.toList
            current := some (mkDraft name)
            appends := if s.current.isSome then s.appends ++ [s.frozen.length] else s.appends } := by
        unfold stepLine
        rw [if_neg (by simp [hsk]), if_pos hmk, hname]
      rw [e1]
      cases hcur : s.current with
      | none =>
        have hf : s.frozen = [] := h3 hcur
        have hids : ids = [] := by
          rw [hcur, hf] at h2
          simpa using h2.symm
        subst hids
        refine ⟨?_, ?_, by intro hc; exact absurd hc (by simp)⟩
        · simp [hcur, hf, h1]
        · simp [hcur, hf, mkDraft]
      | some c =>
        refine ⟨?_, ?_, by intro hc; exact absurd hc (by simp)⟩
        · simp [hcur, h1, List.range_succ]
        · rw [hcur] at h2
          rw [← h2]
          simp [mkDraft]

theorem foldl_declInv (ls : List (List Char)) : ∀ (s : PState) (ids : List String),
    (∀ raw ∈ ls, markerLine raw = true → (declMatch (pyStrip raw)).isSome = true) →
    DeclInv s ids →
    DeclInv (ls.foldl stepLine s) (ids ++ ls.filterMap declOfLine) := by
  induction ls with
  | nil => intro s ids _ h; simpa using h
  | cons raw t ih =>
    intro s ids hg h
    rw [List.foldl_cons, List.filterMap_cons]
    have h' := stepLine_declInv s ids raw (hg raw (by simp)) h
    have hrec := ih (stepLine s raw) (ids ++ (declOfLine raw).toList)
      (fun r hr => hg r (by simp [hr])) h'
    cases hdo : declOfLine raw with
    | none => simpa [hdo] using hrec
    | some n => simpa [hdo] using hrec

theorem finalize_declInv (s : PState) (ids : List String) (h : DeclInv s ids) :
    (finalize s).map (fun d => d.id) = ids := by
  obtain ⟨h1, h2, h3⟩ := h
  cases hcur : s.current with
  | none =>
    have hf : s.frozen = [] := h3 hcur
    have hids : ids = [] := by
      rw [hcur, hf] at h2
      simpa using h2.symm
    subst hids
    unfold finalize
    rw [hcur, h1, hf]
    simp
  | some c =>
    unfold finalize
    rw [hcur, h1]
    simp only [Option.isSome_some, if_true, Option.toList_some]
    have hlen : s.frozen.length.succ = (s.frozen ++ [c]).length := by simp
    rw [← List.range_succ, hlen, map_getD_range (s.frozen ++ [c]) defaultDraft]
    rw [hcur] at h2
    simpa using h2

/-- C1 (amended): provided every line containing the `' a ex:NifFunction'`
marker actually matches the declaration pattern `ex:(\w+)\s+a ex:NifFunction`,
the records appended to the output are exactly the declared resources, once
each, in declaration order. -/
theorem records_finalized_once (content : String)
    (hgood : ∀ raw ∈ splitLines content.data,
      markerLine raw = true → (declMatch (pyStrip raw)).isSome = true) :
    (extractRecords content).map (fun d => d.id) = declaredIds content := by
  have h0 : DeclInv initPState [] := ⟨rfl, rfl, fun _ => rfl⟩
  have h := foldl_declInv (splitLines content.data) initPState [] hgood h0
  have hf := finalize_declInv _ _ h
  simpa [extractRecords, declaredIds] using hf

/-- C1 (counterexample): a line that contains the marker but fails the
declaration pattern re-appends the open draft without closing it, so a
resource declared once appears twice in the output. -/
theorem records_finalized_once_cex :
    declaredIds "ex:Foo a ex:NifFunction .\nzz a ex:NifFunction" = ["Foo"] ∧
    (extractRecords "ex:Foo a ex:NifFunction .\nzz a ex:NifFunction").map (fun d => d.id) =
      ["Foo", "Foo"] := by
  decide

/-- Witness for `records_finalized_once` on a two-declaration input. -/
theorem records_finalized_once_witness :
    (extractRecords "ex:Add a ex:NifFunction ;\n    ex:arity 2 .\nex:Sin a ex:NifFunction .").map
        (fun d => d.id) =
      declaredIds "ex:Add a ex:NifFunction ;\n    ex:arity 2 .\nex:Sin a ex:NifFunction ." :=
  records_finalized_once _ (by decide)

/-! ## C7: documentation grouping -/

theorem charListLe_total : ∀ a b : List Char, charListLe a b = true ∨ charListLe b a = true
  | [], _ => Or.inl rfl
  | _ :: _, [] => Or.inr rfl
  | a :: as, b :: bs => by
    unfold charListLe
    by_cases h1 : a < b
    · left
      rw [if_pos h1]
    · by_cases h2 : b < a
      · right
        rw [if_pos h2]
      · rw [if_neg h1, if_neg h2, if_neg h2, if_neg h1]
        exact charListLe_total as bs

theorem charListLe_trans : ∀ a b c : List Char,
    charListLe a b = true → charListLe b c = true → charListLe a c = true
  | [], _, _ => fun _ _ => rfl
  | _ :: _, [], _ => fun h1 _ => absurd h1 (by simp [charListLe])
  | _ :: _, _ :: _, [] => fun _ h2 => absurd h2 (by simp [charListLe])
  | a :: as, b :: bs, c :: cs => fun h1 h2 => by
    unfold charListLe at h1 h2 ⊢
    by_cases hab : a < b
    · by_cases hbc : b < c
      · rw [if_pos (lt_trans hab hbc)]
      · by_cases hcb : c < b
        · rw [if_neg hbc, if_pos hcb] at h2
          exact absurd h2 (by simp)
        · have hbceq : b = c := le_antisymm (not_lt.mp hcb) (not_lt.mp hbc)
          subst hbceq
          rw [if_pos hab]
    · by_cases hba : b < a
      · rw [if_neg hab, if_pos hba] at h1
        exact absurd h1 (by simp)
      · have habeq : a = b := le_antisymm (not_lt.mp hba) (not_lt.mp hab)
        subst habeq
        rw [if_neg hab, if_neg hba] at h1
        by_cases hac : a < c
        · rw [if_pos hac]
        · by_cases hca : c < a
          · rw [if_neg hac, if_pos hca] at h2
            exact absurd h2 (by simp)
          · rw [if_neg hac, if_neg hca] at h2 ⊢
            exact charListLe_trans as bs cs h1 h2

/-- A map whose function keeps the key leaves key-membership `any`s unchanged. -/
theorem any_key_map (m : List (String × List Draft))
    (f : (String × List Draft) → (String × List Draft))
    (hf : ∀ q, (f q).1 = q.1) (c : String) :
    (m.map f).any (fun p => p.1 == c) = m.any (fun p => p.1 == c) := by
  induction m with
  | nil => rfl
  | cons q t ih => simp [hf q, ih]

/-- One `addToGroups` step keeps both grouping invariants: every bucket is the
original-order filter of the records consumed so far, and a key is present
exactly when its category has been seen. -/
theorem addToGroups_inv (m : List (String × List Draft)) (done : List Draft) (d : Draft)
    (h1 : ∀ p ∈ m, p.2 = done.filter (fun x => catOf x == p.1))
    (h2 : ∀ c : String, m.any (fun p => p.1 == c) = done.any (fun x => catOf x == c)) :
    (∀ p ∈ addToGroups m d, p.2 = (done ++ [d]).filter (fun x => catOf x == p.1)) ∧
    (∀ c : String, (addToGroups m d).any (fun p => p.1 == c) =
      (done ++ [d]).any (fun x => catOf x == c)) := by
  cases hmem : m.any (fun p => p.1 == catOf d) with
  | true =>
    have he : addToGroups m d =
        m.map (fun p => if p.1 == catOf d then (p.1, p.2 ++ [d]) else p) := by
      unfold addToGroups
      rw [if_pos hmem]
    constructor
    · intro p hp
      rw [he] at hp
      obtain ⟨q, hq, hqp⟩ := List.mem_map.mp hp
      by_cases hk : (q.1 == catOf d) = true
      · rw [if_pos hk] at hqp
        subst hqp
        have hcd : catOf d = q.1 := (eq_of_beq hk).symm
        rw [List.filter_append, ← h1 q hq]
        simp [hcd]
      · rw [if_neg hk] at hqp
        subst hqp
        have hcd : ¬(catOf d == q.1) = true := fun hc => hk (by simp [eq_of_beq hc])
        rw [List.filter_append, ← h1 q hq]
        simp only [List.filter_cons, List.filter_nil]
        rw [if_neg hcd]
        simp
    · intro c
      rw [he, any_key_map m _ (fun q => by by_cases hk : (q.1 == catOf d) = true <;> simp [hk]) c,
        h2 c, List.any_append]
      cases hdc : (catOf d == c) with
      | false => simp [hdc]
      | true =>
        have : done.any (fun x => catOf x == c) = true := by
          rw [← eq_of_beq hdc, ← h2 (catOf d)]
          exact hmem
        simp [hdc, this]
  | false =>
    have he : addToGroups m d = m ++ [(catOf d, [d])] := by
      unfold addToGroups
      rw [if_neg (by simp [hmem])]
    constructor
    · intro p hp
      rw [he] at hp
      rcases List.mem_append.mp hp with hm | hs
      · have hk : ¬(catOf d == p.1) = true := by
          intro hc
          have : m.any (fun q => q.1 == catOf d) = true :=
            List.any_eq_true.mpr ⟨p, hm, by rw [eq_of_beq hc]; exact beq_self_eq_true p.1⟩
          rw [hmem] at this
          exact Bool.false_ne_true this
        rw [List.filter_append, ← h1 p hm]
        simp only [List.filter_cons, List.filter_nil]
        rw [if_neg hk]
        simp
      · rw [List.mem_singleton] at hs
        subst hs
        have hanyf : done.any (fun x => catOf x == catOf d) = false := by
          rw [← h2 (catOf d)]
          exact hmem
        have hdone : done.filter (fun x => catOf x == catOf d) = [] := by
          rw [List.filter_eq_nil_iff]
          intro x hx hc
          have hcontra : done.any (fun x => catOf x == catOf d) = true :=
            List.any_eq_true.mpr ⟨x, hx, hc⟩
          rw [hanyf] at hcontra
          exact Bool.false_ne_true hcontra
        rw [List.filter_append, hdone]
        simp
    · intro c
      rw [he, List.any_append, List.any_append, h2 c]
      simp

/-- The grouping loop invariant, pushed through the whole record list. -/
theorem groupBy_go (rest : List Draft) : ∀ (m : List (String × List Draft)) (done : List Draft),
    (∀ p ∈ m, p.2 = done.filter (fun x => catOf x == p.1)) →
    (∀ c : String, m.any (fun p => p.1 == c) = done.any (fun x => catOf x == c)) →
    ∀ p ∈ rest.foldl addToGroups m, p.2 = (done ++ rest).filter (fun x => catOf x == p.1) := by
  induction rest with
  | nil =>
    intro m done h1 _ p hp
    simpa using h1 p hp
  | cons d t ih =>
    intro m done h1 h2 p hp
    rw [List.foldl_cons] at hp
    obtain ⟨h1', h2'⟩ := addToGroups_inv m done d h1 h2
    have := ih (addToGroups m d) (done ++ [d]) h1' h2' p hp
    simpa [List.append_assoc] using this

/-- Every bucket of `by_category` is its category's records in original order. -/
theorem groupBy_filter (nifs : List Draft) :
    ∀ p ∈ groupByCategory nifs, p.2 = nifs.filter (fun x => catOf x == p.1) := by
  intro p hp
  have := groupBy_go nifs [] []
    (fun q hq => absurd hq (List.not_mem_nil q))
    (fun _ => rfl) p hp
  simpa using this

/-- C7: the documentation renderer's group sequence is sorted by category key
(lexicographically), and each group holds exactly that category's records in
their original relative order. -/
theorem docs_groups_sorted (nifs : List Draft) :
    List.Sorted keyLe (docsGroups nifs) ∧
    ∀ p ∈ docsGroups nifs, p.2 = nifs.filter (fun x => catOf x == p.1) := by
  haveI : IsTotal (String × List Draft) keyLe :=
    ⟨fun a b => charListLe_total a.1.data b.1.data⟩
  haveI : IsTrans (String × List Draft) keyLe :=
    ⟨fun a b c => charListLe_trans a.1.data b.1.data c.1.data⟩
  constructor
  · exact List.sorted_insertionSort keyLe (groupByCategory nifs)
  · intro p hp
    exact groupBy_filter nifs p
      ((List.perm_insertionSort keyLe (groupByCategory nifs)).mem_iff.mp hp)

/-- Witness for `docs_groups_sorted`: with `Trig` declared before `Math`, the
`Trig` bucket of the (Math-first, lexicographically sorted) group sequence is
exactly the orig-order filter. -/
theorem docs_groups_sorted_witness :
    [sinTrig] = [sinTrig, addMath].filter (fun x => catOf x == "Trig") := by
  have h := (docs_groups_sorted [sinTrig, addMath]).2 ("Trig", [sinTrig]) (by decide)
  exact h

